import Mathlib

/-!
# Verification of the Reach incremental-collection and ratio-derivation pipeline

Shallow embedding of the core services of the repository:

* `app/services/financial_ratio_calculator.py` — the Ratio Engine
  (`calculate_roe` … `calculate_psr`, `calculate_ratios_for_statement`,
  `save_ratios_to_db`);
* `app/services/dart_api.py` — the Statement Normalizer
  (`parse_financial_data`);
* `app/services/korea_market.py` — the market-snapshot persister
  (`save_market_data_to_db`);
* `app/services/batch_collector.py` — the Incremental Collector
  (`get_last_collection_date`, `collect_korea_batch`);
* `app/services/data_quality_checker.py` — the Quality Checker
  (`check_ratio_anomalies`).

Numeric amounts are modelled as rationals (`ℚ`), Python `None` as
`Option`, SQL `NULL`able columns as `Option ℚ`, and calendar dates as
integers (a day number); date arithmetic in the source only ever adds or
subtracts whole days, so this is faithful.  Python truthiness on an
optional float (`if x:`) is modelled by `pyTruthy`.
-/

/-- Python truthiness of an optional numeric value: `None` and `0` are
falsy, every other number is truthy. -/
def pyTruthy : Option ℚ → Bool
  | none => false
  | some v => v != 0

/-! ## Ratio Engine: the eight pure ratio functions
(`FinancialRatioCalculator.calculate_*` in
`app/services/financial_ratio_calculator.py`). -/

/-- `calculate_roe`: `if not total_equity or total_equity <= 0: return None;
return net_income / total_equity * 100`. -/
def calculate_roe (net_income total_equity : ℚ) : Option ℚ :=
  if total_equity = 0 ∨ total_equity ≤ 0 then none
  else some (net_income / total_equity * 100)

/-- `calculate_roa`: guard on `total_assets`, then
`net_income / total_assets * 100`. -/
def calculate_roa (net_income total_assets : ℚ) : Option ℚ :=
  if total_assets = 0 ∨ total_assets ≤ 0 then none
  else some (net_income / total_assets * 100)

/-- `calculate_operating_margin`: guard on `revenue`, then
`operating_income / revenue * 100`. -/
def calculate_operating_margin (operating_income revenue : ℚ) : Option ℚ :=
  if revenue = 0 ∨ revenue ≤ 0 then none
  else some (operating_income / revenue * 100)

/-- `calculate_net_margin`: guard on `revenue`, then
`net_income / revenue * 100`. -/
def calculate_net_margin (net_income revenue : ℚ) : Option ℚ :=
  if revenue = 0 ∨ revenue ≤ 0 then none
  else some (net_income / revenue * 100)

/-- `calculate_debt_ratio`: guard on `total_equity`, then
`total_liabilities / total_equity * 100`. -/
def calculate_debt_ratio (total_liabilities total_equity : ℚ) : Option ℚ :=
  if total_equity = 0 ∨ total_equity ≤ 0 then none
  else some (total_liabilities / total_equity * 100)

/-- `calculate_per`: guard on `net_income`; the raw quotient is then
suppressed when `per > 10000 or per < -1000`. -/
def calculate_per (market_cap net_income : ℚ) : Option ℚ :=
  if net_income = 0 ∨ net_income ≤ 0 then none
  else
    let per := market_cap / net_income
    if per > 10000 ∨ per < -1000 then none else some per

/-- `calculate_pbr`: guard on `total_equity`; suppressed when
`pbr > 1000 or pbr < -100`. -/
def calculate_pbr (market_cap total_equity : ℚ) : Option ℚ :=
  if total_equity = 0 ∨ total_equity ≤ 0 then none
  else
    let pbr := market_cap / total_equity
    if pbr > 1000 ∨ pbr < -100 then none else some pbr

/-- `calculate_psr`: guard on `revenue`; suppressed when
`psr > 1000 or psr < -100`. -/
def calculate_psr (market_cap revenue : ℚ) : Option ℚ :=
  if revenue = 0 ∨ revenue ≤ 0 then none
  else
    let psr := market_cap / revenue
    if psr > 1000 ∨ psr < -100 then none else some psr

/-- C3: PER returns `market_cap / net_income`, is undefined when
`net_income ≤ 0`, and is suppressed to null exactly when the quotient
falls outside the closed interval `[-1000, 10000]`; PBR
(`market_cap / total_equity`, undefined when equity ≤ 0) and PSR
(`market_cap / revenue`, undefined when revenue ≤ 0) are suppressed
exactly outside the closed interval `[-100, 1000]`. -/
theorem per_pbr_psr_suppression_bounds (mc ni te rev : ℚ) :
    (ni ≤ 0 → calculate_per mc ni = none)
    ∧ (0 < ni → -1000 ≤ mc / ni → mc / ni ≤ 10000 →
        calculate_per mc ni = some (mc / ni))
    ∧ (0 < ni → (10000 < mc / ni ∨ mc / ni < -1000) →
        calculate_per mc ni = none)
    ∧ (te ≤ 0 → calculate_pbr mc te = none)
    ∧ (0 < te → -100 ≤ mc / te → mc / te ≤ 1000 →
        calculate_pbr mc te = some (mc / te))
    ∧ (0 < te → (1000 < mc / te ∨ mc / te < -100) →
        calculate_pbr mc te = none)
    ∧ (rev ≤ 0 → calculate_psr mc rev = none)
    ∧ (0 < rev → -100 ≤ mc / rev → mc / rev ≤ 1000 →
        calculate_psr mc rev = some (mc / rev))
    ∧ (0 < rev → (1000 < mc / rev ∨ mc / rev < -100) →
        calculate_psr mc rev = none) := by
  refine ⟨?_, ?_, ?_, ?_, ?_, ?_, ?_, ?_, ?_⟩ <;>
    simp only [calculate_per, calculate_pbr, calculate_psr]
  · intro h; rw [if_pos (Or.inr h)]
  · intro h h1 h2
    rw [if_neg (by push_neg; exact ⟨ne_of_gt h, h⟩), if_neg (by push_neg; exact ⟨h2, h1⟩)]
  · intro h h1
    rw [if_neg (by push_neg; exact ⟨ne_of_gt h, h⟩), if_pos (by rcases h1 with h1 | h1 <;> [exact Or.inl h1; exact Or.inr h1])]
  · intro h; rw [if_pos (Or.inr h)]
  · intro h h1 h2
    rw [if_neg (by push_neg; exact ⟨ne_of_gt h, h⟩), if_neg (by push_neg; exact ⟨h2, h1⟩)]
  · intro h h1
    rw [if_neg (by push_neg; exact ⟨ne_of_gt h, h⟩), if_pos (by rcases h1 with h1 | h1 <;> [exact Or.inl h1; exact Or.inr h1])]
  · intro h; rw [if_pos (Or.inr h)]
  · intro h h1 h2
    rw [if_neg (by push_neg; exact ⟨ne_of_gt h, h⟩), if_neg (by push_neg; exact ⟨h2, h1⟩)]
  · intro h h1
    rw [if_neg (by push_neg; exact ⟨ne_of_gt h, h⟩), if_pos (by rcases h1 with h1 | h1 <;> [exact Or.inl h1; exact Or.inr h1])]

/-- C3 witness: at `net_income = 1` a PER of exactly `10000` is kept, a
PER of `10000.01` is suppressed, and `net_income = 0` is undefined. -/
theorem per_pbr_psr_suppression_bounds_witness :
    calculate_per 10000 1 = some 10000
    ∧ calculate_per (1000001 / 100) 1 = none
    ∧ calculate_per 10000 0 = none
    ∧ calculate_pbr 1000 1 = some 1000
    ∧ calculate_psr 100001 100 = none := by
  refine ⟨?_, ?_, ?_, ?_, ?_⟩
  · have h := (per_pbr_psr_suppression_bounds 10000 1 1 1).2.1
    simpa using h (by norm_num) (by norm_num) (by norm_num)
  · have h := (per_pbr_psr_suppression_bounds (1000001 / 100) 1 1 1).2.2.1
    exact h (by norm_num) (by norm_num)
  · have h := (per_pbr_psr_suppression_bounds 10000 0 1 1).1
    exact h (by norm_num)
  · have h := (per_pbr_psr_suppression_bounds 1000 1 1 1).2.2.2.2.1
    simpa using h (by norm_num) (by norm_num) (by norm_num)
  · have h := (per_pbr_psr_suppression_bounds 100001 1 1 100).2.2.2.2.2.2.2.2
    exact h (by norm_num) (by norm_num)

/-! ## Ratio Engine: `calculate_ratios_for_statement`
(`app/services/financial_ratio_calculator.py`, lines 179–305).

The database-facing parts are modelled explicitly: the per-stock list of
`StockMarketData` rows stands for the query result set, and the pure
core of the computation is `calculate_ratios_core`. -/

/-- One `StockMarketData` row of one stock: `trade_date` as a day
number, nullable `market_cap`. -/
structure MarketDataRow where
  trade_date : ℤ
  market_cap : Option ℚ
  deriving Repr, DecidableEq

/-- The filter of the `calculate_ratios_for_statement` market-data
query: `trade_date <= target_date`, `trade_date >= target_date - 90
days`, `market_cap` not null, `market_cap > 0`. -/
def snapshotAdmissible (target : ℤ) (r : MarketDataRow) : Bool :=
  decide (r.trade_date ≤ target) && decide (target - 90 ≤ r.trade_date) &&
    (match r.market_cap with
     | some c => decide (0 < c)
     | none => false)

/-- Accumulator for `order_by(trade_date.desc()).first()`: keep the row
with the larger `trade_date`. -/
def pickLater (acc : Option MarketDataRow) (r : MarketDataRow) : Option MarketDataRow :=
  match acc with
  | none => some r
  | some b => if b.trade_date < r.trade_date then some r else some b

/-- The market-data lookup of `calculate_ratios_for_statement`: among
the stock's rows, the one with the latest `trade_date` that passes the
query filter. -/
def selectMarketData (rows : List MarketDataRow) (target : ℤ) : Option MarketDataRow :=
  (rows.filter (snapshotAdmissible target)).foldl pickLater none

/-- Modelled from the spec (for comparison only): the claim's selection
rule as written — the snapshot with the latest `trade_date` that is
`≤` the period end and at most 90 days before it, with no condition on
`market_cap`. -/
def specSelectMarketData (rows : List MarketDataRow) (target : ℤ) : Option MarketDataRow :=
  (rows.filter (fun r =>
    decide (r.trade_date ≤ target) && decide (target - 90 ≤ r.trade_date))).foldl pickLater none

/-- `quarter_end_months = {1: 3, 2: 6, 3: 9}; month =
quarter_end_months.get(fiscal_quarter, 12)`. -/
def quarter_end_month (q : ℕ) : ℕ :=
  if q = 1 then 3 else if q = 2 then 6 else if q = 3 then 9 else 12

/-- `day = (31 if month == 3 else 30) if month in [3, 6, 9] else 31`. -/
def quarter_end_day (m : ℕ) : ℕ :=
  if m = 3 ∨ m = 6 ∨ m = 9 then (if m = 3 then 31 else 30) else 31

/-- The (month, day) of `target_date` in
`calculate_ratios_for_statement`: annual (no quarter) → Dec 31,
otherwise the quarter-end month and day. -/
def target_month_day (fiscal_quarter : Option ℕ) : ℕ × ℕ :=
  match fiscal_quarter with
  | none => (12, 31)
  | some q => (quarter_end_month q, quarter_end_day (quarter_end_month q))

/-- The six statement line items read by
`calculate_ratios_for_statement` (each a nullable DECIMAL column of
`FinancialStatement`). -/
structure StatementData where
  revenue : Option ℚ
  operating_income : Option ℚ
  net_income : Option ℚ
  total_assets : Option ℚ
  total_liabilities : Option ℚ
  total_equity : Option ℚ
  deriving Repr, DecidableEq

/-- `float(statement.revenue) if statement.revenue else None`: the
stored value survives extraction only when truthy (non-null and
non-zero). -/
def extractField (v : Option ℚ) : Option ℚ :=
  if pyTruthy v then v else none

/-- `float(market_data.market_cap) if market_data and
market_data.market_cap else None`. -/
def extractMarketCap (md : Option MarketDataRow) : Option ℚ :=
  match md with
  | none => none
  | some r => if pyTruthy r.market_cap then r.market_cap else none

/-- An `if a and b: f(a, b)` call site: the ratio function runs only
when both (optional) arguments are truthy. -/
def optCall2 (f : ℚ → ℚ → Option ℚ) (a b : Option ℚ) : Option ℚ :=
  if pyTruthy a && pyTruthy b then f (a.getD 0) (b.getD 0) else none

/-- The eight computed ratio values of one `ratios` dict. -/
structure Ratios where
  roe : Option ℚ
  roa : Option ℚ
  operating_margin : Option ℚ
  net_margin : Option ℚ
  debt_ratio : Option ℚ
  per : Option ℚ
  pbr : Option ℚ
  psr : Option ℚ
  deriving Repr, DecidableEq

/-- The pure core of `calculate_ratios_for_statement`: extract the
statement fields (steps 3–4 of the source), then fill each ratio
behind its truthiness pre-call guard. -/
def calculate_ratios_core (stmt : StatementData) (market_cap : Option ℚ) : Ratios :=
  let revenue := extractField stmt.revenue
  let operating_income := extractField stmt.operating_income
  let net_income := extractField stmt.net_income
  let total_assets := extractField stmt.total_assets
  let total_liabilities := extractField stmt.total_liabilities
  let total_equity := extractField stmt.total_equity
  { roe := optCall2 calculate_roe net_income total_equity
    roa := optCall2 calculate_roa net_income total_assets
    operating_margin := optCall2 calculate_operating_margin operating_income revenue
    net_margin := optCall2 calculate_net_margin net_income revenue
    debt_ratio := optCall2 calculate_debt_ratio total_liabilities total_equity
    per := optCall2 calculate_per market_cap net_income
    pbr := optCall2 calculate_pbr market_cap total_equity
    psr := optCall2 calculate_psr market_cap revenue }

/-- `calculate_ratios_for_statement` end-to-end over the stock's market
rows: resolve the snapshot, extract its market cap, compute ratios. -/
def calculate_ratios_with_market (stmt : StatementData)
    (rows : List MarketDataRow) (target : ℤ) : Ratios :=
  calculate_ratios_core stmt (extractMarketCap (selectMarketData rows target))

/-- `pickLater` never returns `none` on a `some` input or any input row. -/
lemma pickLater_isSome (acc : Option MarketDataRow) (r : MarketDataRow) :
    (pickLater acc r).isSome := by
  cases acc with
  | none => rfl
  | some b =>
    simp only [pickLater]
    split <;> rfl

/-- A `foldl pickLater` result is drawn from the accumulator or the
list, and dominates the `trade_date` of the accumulator and of every
list element. -/
lemma foldl_pickLater_spec (l : List MarketDataRow) (acc : Option MarketDataRow)
    (r : MarketDataRow) (h : l.foldl pickLater acc = some r) :
    (acc = some r ∨ r ∈ l)
    ∧ (∀ b, acc = some b → b.trade_date ≤ r.trade_date)
    ∧ (∀ x ∈ l, x.trade_date ≤ r.trade_date) := by
  induction l generalizing acc with
  | nil =>
    refine ⟨Or.inl h, ?_, by simp⟩
    intro b hb
    rw [hb] at h
    cases h
    exact le_refl _
  | cons x xs ih =>
    rw [List.foldl_cons] at h
    obtain ⟨hmem, hacc, hxs⟩ := ih (pickLater acc x) h
    cases acc with
    | none =>
      have hx : x.trade_date ≤ r.trade_date := hacc x rfl
      refine ⟨?_, by simp, ?_⟩
      · rcases hmem with hm | hm
        · cases hm
          exact Or.inr (List.mem_cons_self _ _)
        · exact Or.inr (List.mem_cons_of_mem _ hm)
      · intro y hy
        rcases List.mem_cons.mp hy with hy | hy
        · exact hy ▸ hx
        · exact hxs y hy
    | some a =>
      by_cases hlt : a.trade_date < x.trade_date
      · have hpick : pickLater (some a) x = some x := by
          simp [pickLater, hlt]
        rw [hpick] at hmem hacc
        have hx : x.trade_date ≤ r.trade_date := hacc x rfl
        refine ⟨?_, ?_, ?_⟩
        · rcases hmem with hm | hm
          · cases hm
            exact Or.inr (List.mem_cons_self _ _)
          · exact Or.inr (List.mem_cons_of_mem _ hm)
        · intro b hb
          cases hb
          exact le_of_lt (lt_of_lt_of_le hlt hx)
        · intro y hy
          rcases List.mem_cons.mp hy with hy | hy
          · exact hy ▸ hx
          · exact hxs y hy
      · have hpick : pickLater (some a) x = some a := by
          simp [pickLater, hlt]
        rw [hpick] at hmem hacc
        have ha : a.trade_date ≤ r.trade_date := hacc a rfl
        refine ⟨?_, ?_, ?_⟩
        · rcases hmem with hm | hm
          · exact Or.inl hm
          · exact Or.inr (List.mem_cons_of_mem _ hm)
        · intro b hb
          cases hb
          exact ha
        · intro y hy
          rcases List.mem_cons.mp hy with hy | hy
          · exact hy ▸ le_trans (not_lt.mp hlt) ha
          · exact hxs y hy

/-- A `foldl pickLater` from `none` returns `none` only on the empty
list. -/
lemma foldl_pickLater_eq_none (l : List MarketDataRow) (acc : Option MarketDataRow)
    (h : l.foldl pickLater acc = none) : acc = none ∧ l = [] := by
  induction l generalizing acc with
  | nil => exact ⟨h, rfl⟩
  | cons x xs ih =>
    rw [List.foldl_cons] at h
    obtain ⟨h1, _⟩ := ih (pickLater acc x) h
    have := pickLater_isSome acc x
    rw [h1] at this
    cases this

/-- C4 (amended): the period-end mapping is annual→Dec 31, Q1→Mar 31,
Q2→Jun 30, Q3→Sep 30; the snapshot used is the one with the latest
`trade_date` among those `≤` the period end, at most 90 days before it,
**and carrying a non-null positive `market_cap`** (the positivity
filter of the query is part of the selection, which the claim as
stated omits); and when no snapshot qualifies, PER/PBR/PSR are null
while ROE, ROA, the margins and the debt ratio are computed from the
statement alone, independent of any market-cap input. -/
theorem snapshot_selection_amended (rows : List MarketDataRow) (target : ℤ)
    (stmt : StatementData) :
    (target_month_day none = (12, 31) ∧ target_month_day (some 1) = (3, 31)
      ∧ target_month_day (some 2) = (6, 30) ∧ target_month_day (some 3) = (9, 30))
    ∧ (∀ r, selectMarketData rows target = some r →
        r ∈ rows ∧ r.trade_date ≤ target ∧ target - 90 ≤ r.trade_date
        ∧ (∃ c, r.market_cap = some c ∧ 0 < c)
        ∧ ∀ x ∈ rows, snapshotAdmissible target x = true →
            x.trade_date ≤ r.trade_date)
    ∧ (selectMarketData rows target = none →
        (calculate_ratios_with_market stmt rows target).per = none
        ∧ (calculate_ratios_with_market stmt rows target).pbr = none
        ∧ (calculate_ratios_with_market stmt rows target).psr = none)
    ∧ (∀ mc mc2 : Option ℚ,
        (calculate_ratios_core stmt mc).roe = (calculate_ratios_core stmt mc2).roe
        ∧ (calculate_ratios_core stmt mc).roa = (calculate_ratios_core stmt mc2).roa
        ∧ (calculate_ratios_core stmt mc).operating_margin
            = (calculate_ratios_core stmt mc2).operating_margin
        ∧ (calculate_ratios_core stmt mc).net_margin
            = (calculate_ratios_core stmt mc2).net_margin
        ∧ (calculate_ratios_core stmt mc).debt_ratio
            = (calculate_ratios_core stmt mc2).debt_ratio) := by
  refine ⟨⟨rfl, rfl, rfl, rfl⟩, ?_, ?_, ?_⟩
  · intro r hr
    obtain ⟨hmem, _, hmax⟩ := foldl_pickLater_spec _ none r hr
    have hrmem : r ∈ rows.filter (snapshotAdmissible target) := by
      rcases hmem with hm | hm
      · cases hm
      · exact hm
    obtain ⟨hin, hadm⟩ := List.mem_filter.mp hrmem
    have hadm' := hadm
    simp only [snapshotAdmissible, Bool.and_eq_true, decide_eq_true_eq] at hadm'
    obtain ⟨⟨h1, h2⟩, h3⟩ := hadm'
    refine ⟨hin, h1, h2, ?_, ?_⟩
    · cases hmc : r.market_cap with
      | none => rw [hmc] at h3; cases h3
      | some c =>
        rw [hmc] at h3
        exact ⟨c, rfl, by simpa using h3⟩
    · intro x hx hxadm
      exact hmax x (List.mem_filter.mpr ⟨hx, hxadm⟩)
  · intro hnone
    simp only [calculate_ratios_with_market, hnone, extractMarketCap]
    exact ⟨rfl, rfl, rfl⟩
  · intro mc mc2
    exact ⟨rfl, rfl, rfl, rfl, rfl⟩

/-- C4 witness: on a stock with one in-window positive snapshot and one
out-of-window snapshot, the selection picks the in-window one; with no
rows at all, valuation ratios are null while ROE is still computed. -/
theorem snapshot_selection_amended_witness :
    ((⟨5, some 5000⟩ : MarketDataRow) ∈ [(⟨5, some 5000⟩ : MarketDataRow), ⟨-100, some 7000⟩]
      ∧ (5 : ℤ) ≤ 10 ∧ (10 : ℤ) - 90 ≤ 5
      ∧ (∃ c, (some (5000 : ℚ)) = some c ∧ 0 < c)
      ∧ ∀ x ∈ [(⟨5, some 5000⟩ : MarketDataRow), ⟨-100, some 7000⟩],
          snapshotAdmissible 10 x = true → x.trade_date ≤ (5 : ℤ))
    ∧ (calculate_ratios_with_market
        ⟨some 1000, some 100, some 100, some 2000, some 1500, some 500⟩ [] 10).per = none
    ∧ (calculate_ratios_core
        ⟨some 1000, some 100, some 100, some 2000, some 1500, some 500⟩ none).roe
        = (calculate_ratios_core
        ⟨some 1000, some 100, some 100, some 2000, some 1500, some 500⟩ (some 5000)).roe := by
  refine ⟨?_, ?_, ?_⟩
  · exact (snapshot_selection_amended [⟨5, some 5000⟩, ⟨-100, some 7000⟩] 10
      ⟨some 1000, some 100, some 100, some 2000, some 1500, some 500⟩).2.1
      ⟨5, some 5000⟩ (by decide)
  · exact ((snapshot_selection_amended []  10
      ⟨some 1000, some 100, some 100, some 2000, some 1500, some 500⟩).2.2.1 rfl).1
  · exact ((snapshot_selection_amended [] 10
      ⟨some 1000, some 100, some 100, some 2000, some 1500, some 500⟩).2.2.2
      none (some 5000)).1

/-- C4 counterexample: with snapshots at day 0 (`market_cap = 5000`)
and day 5 (`market_cap` null), period end day 10, the claim's rule as
written selects the day-5 row (latest in window), but the code selects
the day-0 row and computes a non-null PER from it. -/
theorem snapshot_selection_counterexample :
    selectMarketData [⟨0, some 5000⟩, ⟨5, none⟩] 10 = some ⟨0, some 5000⟩
    ∧ specSelectMarketData [⟨0, some 5000⟩, ⟨5, none⟩] 10 = some ⟨5, none⟩
    ∧ selectMarketData [⟨0, some 5000⟩, ⟨5, none⟩] 10
        ≠ specSelectMarketData [⟨0, some 5000⟩, ⟨5, none⟩] 10
    ∧ (calculate_ratios_with_market
        ⟨some 1000, some 100, some 100, some 2000, some 1500, some 500⟩
        [⟨0, some 5000⟩, ⟨5, none⟩] 10).per = some 50 := by
  refine ⟨by decide, by decide, by decide, ?_⟩
  simp only [calculate_ratios_with_market, calculate_ratios_core]
  norm_num [selectMarketData, specSelectMarketData, snapshotAdmissible, pickLater,
    extractMarketCap, extractField, pyTruthy, optCall2, calculate_per]

/-- C9: a stored line item whose value is exactly `0` is treated the
same as a missing item — extraction maps `some 0` and `none` to the
same result, and every ratio that uses a zero input is null (e.g.
`net_income = 0` with positive `total_equity` yields a null ROE, not
`0`), because extraction and the pre-call guards test Python
truthiness. -/
theorem zero_line_item_treated_as_missing (stmt : StatementData) (mc : Option ℚ) :
    extractField (some 0) = extractField none
    ∧ (stmt.net_income = some 0 →
        (calculate_ratios_core stmt mc).roe = none
        ∧ (calculate_ratios_core stmt mc).roa = none
        ∧ (calculate_ratios_core stmt mc).net_margin = none
        ∧ (calculate_ratios_core stmt mc).per = none)
    ∧ (stmt.revenue = some 0 →
        (calculate_ratios_core stmt mc).operating_margin = none
        ∧ (calculate_ratios_core stmt mc).net_margin = none
        ∧ (calculate_ratios_core stmt mc).psr = none)
    ∧ (stmt.total_equity = some 0 →
        (calculate_ratios_core stmt mc).roe = none
        ∧ (calculate_ratios_core stmt mc).debt_ratio = none
        ∧ (calculate_ratios_core stmt mc).pbr = none)
    ∧ (stmt.total_assets = some 0 → (calculate_ratios_core stmt mc).roa = none)
    ∧ (stmt.total_liabilities = some 0 →
        (calculate_ratios_core stmt mc).debt_ratio = none) := by
  refine ⟨rfl, ?_, ?_, ?_, ?_, ?_⟩ <;> intro h <;>
    simp [calculate_ratios_core, optCall2, h, extractField, pyTruthy]

/-- C9 witness: `net_income = 0` with `total_equity = 500 > 0` gives a
null ROE (and extraction of `some 0` equals extraction of `none`). -/
theorem zero_line_item_treated_as_missing_witness :
    extractField (some 0) = extractField none
    ∧ (calculate_ratios_core
        ⟨some 1000, some 100, some 0, some 2000, some 1500, some 500⟩
        (some 5000)).roe = none := by
  have h := zero_line_item_treated_as_missing
    ⟨some 1000, some 100, some 0, some 2000, some 1500, some 500⟩ (some 5000)
  exact ⟨h.1, (h.2.1 rfl).1⟩

/-! ## Statement Normalizer: `DartApiService.parse_financial_data`
(`app/services/dart_api.py`, lines 136–230).

A raw row carries the statement division `sj_div`, the account name
`account_nm`, and the parse outcome of `float(thstrm_amount.replace(
',', ''))` as an `Option ℚ` (`none` models a parse failure, which the
source swallows with `except: pass`). -/

/-- One raw statement row. -/
structure RawRow where
  sj_div : String
  account_nm : String
  thstrm_amount : Option ℚ
  deriving Repr, DecidableEq

/-- The ten target fields of the normalized statement. -/
inductive StmtField
  | revenue | operating_income | net_income | ebitda
  | total_assets | total_liabilities | total_equity
  | operating_cash_flow | investing_cash_flow | financing_cash_flow
  deriving Repr, DecidableEq

/-- The `result` dict of `parse_financial_data`: ten optional numeric
fields, all initially null. -/
structure ParsedFinancialData where
  revenue : Option ℚ
  operating_income : Option ℚ
  net_income : Option ℚ
  ebitda : Option ℚ
  total_assets : Option ℚ
  total_liabilities : Option ℚ
  total_equity : Option ℚ
  operating_cash_flow : Option ℚ
  investing_cash_flow : Option ℚ
  financing_cash_flow : Option ℚ
  deriving Repr, DecidableEq

/-- All-null initial `result`. -/
def initParsed : ParsedFinancialData :=
  ⟨none, none, none, none, none, none, none, none, none, none⟩

/-- Read one field of the result dict. -/
def getField (d : ParsedFinancialData) : StmtField → Option ℚ
  | .revenue => d.revenue
  | .operating_income => d.operating_income
  | .net_income => d.net_income
  | .ebitda => d.ebitda
  | .total_assets => d.total_assets
  | .total_liabilities => d.total_liabilities
  | .total_equity => d.total_equity
  | .operating_cash_flow => d.operating_cash_flow
  | .investing_cash_flow => d.investing_cash_flow
  | .financing_cash_flow => d.financing_cash_flow

/-- Assign one field of the result dict. -/
def setField (d : ParsedFinancialData) (f : StmtField) (v : ℚ) : ParsedFinancialData :=
  match f with
  | .revenue => { d with revenue := some v }
  | .operating_income => { d with operating_income := some v }
  | .net_income => { d with net_income := some v }
  | .ebitda => { d with ebitda := some v }
  | .total_assets => { d with total_assets := some v }
  | .total_liabilities => { d with total_liabilities := some v }
  | .total_equity => { d with total_equity := some v }
  | .operating_cash_flow => { d with operating_cash_flow := some v }
  | .investing_cash_flow => { d with investing_cash_flow := some v }
  | .financing_cash_flow => { d with financing_cash_flow := some v }

/-- One character list is a prefix of another. -/
def charIsPrefix : List Char → List Char → Bool
  | [], _ => true
  | _ :: _, [] => false
  | a :: as, b :: bs => a == b && charIsPrefix as bs

/-- The needle occurs as a contiguous run somewhere in the haystack. -/
def charContains (needle : List Char) : List Char → Bool
  | [] => charIsPrefix needle []
  | c :: rest => charIsPrefix needle (c :: rest) || charContains needle rest

/-- Substring containment (`t in s` on Python strings). -/
def strContains (s t : String) : Bool :=
  charContains t.data s.data

/-- The static `exact_mapping` table:
`(sj_div, account_nm) → field`. -/
def exact_mapping (key : String × String) : Option StmtField :=
  if key = ("IS", "영업수익") then some .revenue
  else if key = ("IS", "영업이익") then some .operating_income
  else if key = ("IS", "지배기업의 소유주에게 귀속되는 당기순이익(손실)") then some .net_income
  else if key = ("BS", "자산총계") then some .total_assets
  else if key = ("BS", "부채총계") then some .total_liabilities
  else if key = ("BS", "자본총계") then some .total_equity
  else if key = ("CF", "영업활동현금흐름") then some .operating_cash_flow
  else if key = ("CF", "투자활동현금흐름") then some .investing_cash_flow
  else if key = ("CF", "재무활동현금흐름") then some .financing_cash_flow
  else none

/-- Processing of one row of the loop body of `parse_financial_data`:
first the exact-match lookup (which assigns unconditionally and
`continue`s), then the category-scoped keyword fallback, which assigns
only when the target field `is None`. -/
def processRow (result : ParsedFinancialData) (row : RawRow) : ParsedFinancialData :=
  match exact_mapping (row.sj_div, row.account_nm) with
  | some f =>
      match row.thstrm_amount with
      | some amount => setField result f amount
      | none => result
  | none =>
      if row.sj_div = "IS" then
        if strContains row.account_nm "영업수익" && (result.revenue == none) then
          match row.thstrm_amount with
          | some a => { result with revenue := some a }
          | none => result
        else if strContains row.account_nm "영업이익" && (result.operating_income == none) then
          match row.thstrm_amount with
          | some a => { result with operating_income := some a }
          | none => result
        else if strContains row.account_nm "당기순이익" && (result.net_income == none) then
          match row.thstrm_amount with
          | some a => { result with net_income := some a }
          | none => result
        else result
      else result

/-- `parse_financial_data`: fold the row loop over the raw rows. -/
def parse_financial_data (rows : List RawRow) : ParsedFinancialData :=
  rows.foldl processRow initParsed

/-- Reading a field just assigned by `setField` returns the assigned
value. -/
lemma getField_setField (d : ParsedFinancialData) (f : StmtField) (v : ℚ) :
    getField (setField d f v) f = some v := by
  cases f <;> rfl

/-- C2 counterexample: two rows both exact-matching
`('IS', '영업이익') → operating_income`, amounts 100 then 200 — the
second (later) row overwrites, so the kept value is 200, not the first
row's 100 as the claim requires. -/
theorem normalizer_first_match_counterexample :
    (parse_financial_data
      [⟨"IS", "영업이익", some 100⟩, ⟨"IS", "영업이익", some 200⟩]).operating_income
        = some 200
    ∧ (parse_financial_data
      [⟨"IS", "영업이익", some 100⟩, ⟨"IS", "영업이익", some 200⟩]).operating_income
        ≠ some 100 := by
  refine ⟨by decide, by decide⟩

/-- C2 (amended): the keyword fallback is first-match-wins — a row with
no exact match never changes a field that is already set — but an
exact-match row with a parsable amount always assigns its field, so a
later exact-match duplicate overwrites the earlier value
(last-match-wins on the exact-match path). -/
theorem normalizer_match_discipline (res : ParsedFinancialData) (row : RawRow)
    (f : StmtField) (a : ℚ) :
    (exact_mapping (row.sj_div, row.account_nm) = some f →
      row.thstrm_amount = some a →
      getField (processRow res row) f = some a)
    ∧ (exact_mapping (row.sj_div, row.account_nm) = none →
      getField res f ≠ none →
      getField (processRow res row) f = getField res f) := by
  constructor
  · intro h1 h2
    simp only [processRow, h1, h2]
    exact getField_setField res f a
  · intro h1 h2
    simp only [processRow, h1]
    split
    · split
      · rename_i hcond
        have hrev : res.revenue = none := by
          have := (Bool.and_eq_true _ _).mp hcond
          simpa using this.2
        cases hamt : row.thstrm_amount with
        | none => rfl
        | some a' =>
          cases f <;> simp_all [getField]
      · split
        · rename_i hcond
          have hoi : res.operating_income = none := by
            have := (Bool.and_eq_true _ _).mp hcond
            simpa using this.2
          cases hamt : row.thstrm_amount with
          | none => rfl
          | some a' =>
            cases f <;> simp_all [getField]
        · split
          · rename_i hcond
            have hni : res.net_income = none := by
              have := (Bool.and_eq_true _ _).mp hcond
              simpa using this.2
            cases hamt : row.thstrm_amount with
            | none => rfl
            | some a' =>
              cases f <;> simp_all [getField]
          · rfl
    · rfl

/-- C2 amended witness: an exact-match duplicate overwrites (200 over
100), while a keyword-fallback row leaves an already-set revenue
untouched; Scenario E — of two rows both mapping to revenue via the
keyword fallback, only the first is kept. -/
theorem normalizer_match_discipline_witness :
    getField (processRow (parse_financial_data [⟨"IS", "영업이익", some 100⟩])
        ⟨"IS", "영업이익", some 200⟩) .operating_income = some 200
    ∧ getField (processRow
        { initParsed with revenue := some 7 }
        ⟨"IS", "연결영업수익", some 9⟩) .revenue = some (7 : ℚ)
    ∧ (parse_financial_data
        [⟨"IS", "연결영업수익", some 1⟩, ⟨"IS", "총영업수익", some 2⟩]).revenue
        = some 1 := by
  refine ⟨?_, ?_, ?_⟩
  · exact (normalizer_match_discipline
      (parse_financial_data [⟨"IS", "영업이익", some 100⟩])
      ⟨"IS", "영업이익", some 200⟩ .operating_income 200).1 (by decide) rfl
  · exact (normalizer_match_discipline
      { initParsed with revenue := some 7 }
      ⟨"IS", "연결영업수익", some 9⟩ .revenue 9).2 (by decide) (by simp [getField, initParsed])
  · rfl

/-! ## Market-snapshot persister:
`KoreaMarketCollector.save_market_data_to_db`
(`app/services/korea_market.py`, lines 297–417).

A fetched dataframe row carries nullable `MarketCap`, `TradingValue`
and `SharesOutstanding` (`none` models a pandas `NaN`); the known
tickers stand for the `Stock` rows of the collected market. The state
collects the rows that get upserted plus the loop counters and the
once-per-batch `holiday_detected` flag that guards the log line. -/

/-- One fetched market-snapshot row (indexed by ticker). -/
structure FetchedRow where
  ticker : String
  market_cap : Option ℚ
  trading_value : Option ℚ
  shares_outstanding : Option ℤ
  deriving Repr, DecidableEq

/-- One persisted `StockMarketData` row (per ticker): stored
`market_cap` and `trading_value` are null unless positive. -/
structure StoredMarketRow where
  ticker : String
  market_cap : Option ℚ
  trading_value : Option ℚ
  shares_outstanding : Option ℤ
  deriving Repr, DecidableEq

/-- Loop state of `save_market_data_to_db`. -/
structure SaveMarketState where
  saved : List StoredMarketRow
  saved_count : ℕ
  skipped_count : ℕ
  holiday_detected : Bool
  deriving Repr, DecidableEq

/-- Initial loop state. -/
def initSaveMarketState : SaveMarketState := ⟨[], 0, 0, false⟩

/-- A row that signals a non-trading day: `market_cap` and
`trading_value` both present and zero, or both absent. -/
def isHolidayRow (r : FetchedRow) : Bool :=
  match r.market_cap, r.trading_value with
  | some mc, some tv => mc == 0 && tv == 0
  | none, none => true
  | _, _ => false

/-- `None if not positive` storage convention:
`float(x) if (pd.notna(x) and x > 0) else None`. -/
def storePositive (v : Option ℚ) : Option ℚ :=
  match v with
  | some c => if 0 < c then some c else none
  | none => none

/-- The body of the row loop of `save_market_data_to_db`: the two
holiday checks (both-present-and-zero, both-absent) skip the row and
set the once-per-batch flag; an unknown ticker is skipped; otherwise
the row is upserted with zeros stored as null. -/
def save_market_step (knownTickers : List String) (st : SaveMarketState)
    (r : FetchedRow) : SaveMarketState :=
  if (r.market_cap.isSome && r.trading_value.isSome)
      && (r.market_cap.getD 0 == 0 && r.trading_value.getD 0 == 0) then
    { st with skipped_count := st.skipped_count + 1, holiday_detected := true }
  else if r.market_cap.isNone && r.trading_value.isNone then
    { st with skipped_count := st.skipped_count + 1, holiday_detected := true }
  else if ! knownTickers.contains r.ticker then
    { st with skipped_count := st.skipped_count + 1 }
  else
    { st with
      saved := st.saved ++ [⟨r.ticker, storePositive r.market_cap,
        storePositive r.trading_value, r.shares_outstanding⟩]
      saved_count := st.saved_count + 1 }

/-- `save_market_data_to_db`: fold the row loop over the fetched
batch. -/
def save_market_data (knownTickers : List String) (rows : List FetchedRow) :
    SaveMarketState :=
  rows.foldl (save_market_step knownTickers) initSaveMarketState

/-- The two holiday checks of the loop body fire exactly on
`isHolidayRow`. -/
lemma save_market_step_holiday (knownTickers : List String)
    (st : SaveMarketState) (r : FetchedRow) (h : isHolidayRow r = true) :
    save_market_step knownTickers st r
      = { st with skipped_count := st.skipped_count + 1, holiday_detected := true } := by
  simp only [isHolidayRow] at h
  simp only [save_market_step]
  cases hmc : r.market_cap with
  | none =>
    cases htv : r.trading_value with
    | none => simp
    | some tv => rw [hmc, htv] at h; cases h
  | some mc =>
    cases htv : r.trading_value with
    | none => rw [hmc, htv] at h; cases h
    | some tv =>
      rw [hmc, htv] at h
      simp only [hmc, htv, Option.isSome_some, Option.getD_some]
      rw [if_pos (by simpa using h)]

/-- A non-holiday row never sets the flag and, when its ticker is
known, is saved. -/
lemma save_market_step_valid (knownTickers : List String)
    (st : SaveMarketState) (r : FetchedRow) (h : isHolidayRow r = false) :
    (save_market_step knownTickers st r).holiday_detected = st.holiday_detected
    ∧ (knownTickers.contains r.ticker = true →
        save_market_step knownTickers st r
          = { st with
              saved := st.saved ++ [⟨r.ticker, storePositive r.market_cap,
                storePositive r.trading_value, r.shares_outstanding⟩]
              saved_count := st.saved_count + 1 }) := by
  have hc1 : ((r.market_cap.isSome && r.trading_value.isSome)
      && (r.market_cap.getD 0 == 0 && r.trading_value.getD 0 == 0)) = false := by
    cases hmc : r.market_cap with
    | none => simp
    | some mc =>
      cases htv : r.trading_value with
      | none => simp
      | some tv =>
        simp only [isHolidayRow, hmc, htv] at h
        simp [h]
  have hc2 : (r.market_cap.isNone && r.trading_value.isNone) = false := by
    cases hmc : r.market_cap with
    | none =>
      cases htv : r.trading_value with
      | none => simp only [isHolidayRow, hmc, htv] at h; cases h
      | some tv => simp [htv]
    | some mc => simp [hmc]
  simp only [save_market_step, hc1, hc2, Bool.false_eq_true, if_false]
  constructor
  · split <;> rfl
  · intro hk
    have hk2 : (!knownTickers.contains r.ticker) = false := by rw [hk]; rfl
    rw [hk2]
    simp

/-- C1 (amended): each fetched row whose `market_cap` and
`trading_value` are both zero or both absent is itself skipped and
sets the once-per-batch holiday flag (which guards the log line), and
the flag ends `true` iff some row of the batch was such a row; other
rows of the same batch are *not* dropped — a non-holiday row with a
known ticker is persisted regardless of holiday rows elsewhere in the
batch; in particular, when every row is a holiday row, zero rows are
persisted. -/
theorem holiday_filter_amended (knownTickers : List String)
    (rows : List FetchedRow) (st : SaveMarketState) (r : FetchedRow) :
    (isHolidayRow r = true →
      save_market_step knownTickers st r
        = { st with skipped_count := st.skipped_count + 1, holiday_detected := true })
    ∧ (isHolidayRow r = false → knownTickers.contains r.ticker = true →
        save_market_step knownTickers st r
          = { st with
              saved := st.saved ++ [⟨r.ticker, storePositive r.market_cap,
                storePositive r.trading_value, r.shares_outstanding⟩]
              saved_count := st.saved_count + 1 })
    ∧ ((∀ x ∈ rows, isHolidayRow x = true) →
        (save_market_data knownTickers rows).saved = []
        ∧ (save_market_data knownTickers rows).saved_count = 0)
    ∧ ((save_market_data knownTickers rows).holiday_detected = true
        ↔ ∃ x ∈ rows, isHolidayRow x = true) := by
  refine ⟨save_market_step_holiday knownTickers st r, ?_, ?_, ?_⟩
  · intro h hk
    exact (save_market_step_valid knownTickers st r h).2 hk
  · intro hall
    suffices h : ∀ s : SaveMarketState,
        (rows.foldl (save_market_step knownTickers) s).saved = s.saved
        ∧ (rows.foldl (save_market_step knownTickers) s).saved_count = s.saved_count by
      exact h initSaveMarketState
    induction rows with
    | nil => intro s; exact ⟨rfl, rfl⟩
    | cons x xs ih =>
      intro s
      have hx := hall x (List.mem_cons_self _ _)
      rw [List.foldl_cons, save_market_step_holiday knownTickers s x hx]
      exact ih (fun y hy => hall y (List.mem_cons_of_mem _ hy)) _
  · suffices h : ∀ s : SaveMarketState,
        ((rows.foldl (save_market_step knownTickers) s).holiday_detected = true
          ↔ (s.holiday_detected = true ∨ ∃ x ∈ rows, isHolidayRow x = true)) by
      have h0 := h initSaveMarketState
      simp only [save_market_data]
      rw [h0]
      simp [initSaveMarketState]
    induction rows with
    | nil => intro s; simp
    | cons x xs ih =>
      intro s
      rw [List.foldl_cons]
      rw [ih (save_market_step knownTickers s x)]
      cases hx : isHolidayRow x with
      | true =>
        rw [save_market_step_holiday knownTickers s x hx]
        simp [hx]
      | false =>
        have hflag := (save_market_step_valid knownTickers s x hx).1
        rw [hflag]
        constructor
        · rintro (hs | ⟨y, hy, hyy⟩)
          · exact Or.inl hs
          · exact Or.inr ⟨y, List.mem_cons_of_mem _ hy, hyy⟩
        · rintro (hs | ⟨y, hy, hyy⟩)
          · exact Or.inl hs
          · rcases List.mem_cons.mp hy with hy | hy
            · rw [hy] at hyy; rw [hyy] at hx; cases hx
            · exact Or.inr ⟨y, hy, hyy⟩

/-- C1 amended witness: a batch with one zero/zero row and one valid
row for a known ticker skips the first, saves the second, and sets the
holiday flag; an all-holiday batch persists nothing. -/
theorem holiday_filter_amended_witness :
    save_market_step ["A", "B"] initSaveMarketState ⟨"A", some 0, some 0, none⟩
      = { initSaveMarketState with
          skipped_count := initSaveMarketState.skipped_count + 1, holiday_detected := true }
    ∧ save_market_step ["A", "B"] initSaveMarketState ⟨"B", some 500, some 10, some 100⟩
      = { initSaveMarketState with
          saved := initSaveMarketState.saved ++ [⟨"B", some 500, some 10, some 100⟩],
          saved_count := initSaveMarketState.saved_count + 1 }
    ∧ (save_market_data ["A", "B"] [⟨"A", some 0, some 0, none⟩]).saved_count = 0 := by
  refine ⟨?_, ?_, ?_⟩
  · exact (holiday_filter_amended ["A", "B"] [] initSaveMarketState
      ⟨"A", some 0, some 0, none⟩).1 (by decide)
  · exact (holiday_filter_amended ["A", "B"] [] initSaveMarketState
      ⟨"B", some 500, some 10, some 100⟩).2.1 (by decide) (by decide)
  · exact ((holiday_filter_amended ["A", "B"] [⟨"A", some 0, some 0, none⟩]
      initSaveMarketState ⟨"A", some 0, some 0, none⟩).2.2.1
      (by intro x hx
          rcases List.mem_cons.mp hx with h | h
          · rw [h]; rfl
          · cases h)).2

/-- C1 counterexample: in a batch where the row for ticker `A` has
`market_cap = 0` and `trading_value = 0` but the row for ticker `B` is
valid, the collector persists B's row — one row, not zero — so the
detection does not suppress persistence for the other securities of
the batch. -/
theorem holiday_filter_counterexample :
    (save_market_data ["A", "B"]
      [⟨"A", some 0, some 0, none⟩, ⟨"B", some 500, some 10, some 100⟩]).saved_count = 1
    ∧ (save_market_data ["A", "B"]
      [⟨"A", some 0, some 0, none⟩, ⟨"B", some 500, some 10, some 100⟩]).saved
        = [⟨"B", some 500, some 10, some 100⟩]
    ∧ (save_market_data ["A", "B"]
      [⟨"A", some 0, some 0, none⟩, ⟨"B", some 500, some 10, some 100⟩]).saved_count ≠ 0 := by
  refine ⟨by decide, by decide, by decide⟩

/-! ## Incremental Collector: `BatchCollector`
(`app/services/batch_collector.py`).

`get_last_collection_date` (lines 25–47) reduces to the maximal
persisted `trade_date` of the security's `StockPrice` rows; the
per-security window logic of `collect_korea_batch` (lines 112–149)
combined with the date defaulting of
`KoreaMarketCollector.get_stock_price` (start defaults to 365 days
before today, end defaults to today) is `compute_fetch_window`. -/

/-- Accumulator for `order_by(trade_date.desc()).first()` over price
bars: keep the later date. -/
def pickLaterDate (acc : Option ℤ) (d : ℤ) : Option ℤ :=
  match acc with
  | none => some d
  | some m => if m < d then some d else some m

/-- `get_last_collection_date`: the latest persisted price-bar date of
the security, `none` when it has no bar. -/
def get_last_collection_date (bars : List ℤ) : Option ℤ :=
  bars.foldl pickLaterDate none

/-- The fetch window of one security in `collect_korea_batch`:
`start_date = last_date + 1 day` when incremental and a last date
exists, otherwise the `get_stock_price` defaults
`(today - 365 days, today)`; the end date is always today. -/
def compute_fetch_window (incremental : Bool) (last_date : Option ℤ)
    (today : ℤ) : ℤ × ℤ :=
  let start : Option ℤ :=
    if incremental then
      match last_date with
      | some d => some (d + 1)
      | none => none
    else none
  match start with
  | some s => (s, today)
  | none => (today - 365, today)

/-- `pickLaterDate` always yields a date. -/
lemma pickLaterDate_isSome (acc : Option ℤ) (d : ℤ) :
    (pickLaterDate acc d).isSome := by
  cases acc with
  | none => rfl
  | some m =>
    simp only [pickLaterDate]
    split <;> rfl

/-- A `foldl pickLaterDate` result comes from the accumulator or the
list and dominates both. -/
lemma foldl_pickLaterDate_spec (l : List ℤ) (acc : Option ℤ) (r : ℤ)
    (h : l.foldl pickLaterDate acc = some r) :
    (acc = some r ∨ r ∈ l) ∧ (∀ b, acc = some b → b ≤ r) ∧ ∀ x ∈ l, x ≤ r := by
  induction l generalizing acc with
  | nil =>
    refine ⟨Or.inl h, ?_, by simp⟩
    intro b hb
    rw [hb] at h
    cases h
    exact le_refl _
  | cons x xs ih =>
    rw [List.foldl_cons] at h
    obtain ⟨hmem, hacc, hxs⟩ := ih (pickLaterDate acc x) h
    cases acc with
    | none =>
      have hx : x ≤ r := hacc x rfl
      refine ⟨?_, by simp, ?_⟩
      · rcases hmem with hm | hm
        · cases hm
          exact Or.inr (List.mem_cons_self _ _)
        · exact Or.inr (List.mem_cons_of_mem _ hm)
      · intro y hy
        rcases List.mem_cons.mp hy with hy | hy
        · exact hy ▸ hx
        · exact hxs y hy
    | some a =>
      by_cases hlt : a < x
      · have hpick : pickLaterDate (some a) x = some x := by
          simp [pickLaterDate, hlt]
        rw [hpick] at hmem hacc
        have hx : x ≤ r := hacc x rfl
        refine ⟨?_, ?_, ?_⟩
        · rcases hmem with hm | hm
          · cases hm
            exact Or.inr (List.mem_cons_self _ _)
          · exact Or.inr (List.mem_cons_of_mem _ hm)
        · intro b hb
          cases hb
          exact le_of_lt (lt_of_lt_of_le hlt hx)
        · intro y hy
          rcases List.mem_cons.mp hy with hy | hy
          · exact hy ▸ hx
          · exact hxs y hy
      · have hpick : pickLaterDate (some a) x = some a := by
          simp [pickLaterDate, hlt]
        rw [hpick] at hmem hacc
        have ha : a ≤ r := hacc a rfl
        refine ⟨?_, ?_, ?_⟩
        · rcases hmem with hm | hm
          · exact Or.inl hm
          · exact Or.inr (List.mem_cons_of_mem _ hm)
        · intro b hb
          cases hb
          exact ha
        · intro y hy
          rcases List.mem_cons.mp hy with hy | hy
          · exact hy ▸ le_trans (not_lt.mp hlt) ha
          · exact hxs y hy

/-- A `foldl pickLaterDate` returns `none` only when it started from
`none` on the empty list. -/
lemma foldl_pickLaterDate_eq_none (l : List ℤ) (acc : Option ℤ)
    (h : l.foldl pickLaterDate acc = none) : acc = none ∧ l = [] := by
  induction l generalizing acc with
  | nil => exact ⟨h, rfl⟩
  | cons x xs ih =>
    rw [List.foldl_cons] at h
    obtain ⟨h1, _⟩ := ih (pickLaterDate acc x) h
    have := pickLaterDate_isSome acc x
    rw [h1] at this
    cases this

/-- C5: for a security with persisted price bars the incremental window
runs from the day after the maximal persisted `trade_date` to today —
with last persisted date 2024-01-10 (day 10 of January 2024) and today
2024-01-15 (day 15), exactly days 11 through 15; with no persisted bar,
or in full mode, the window is the trailing 365 days. -/
theorem incremental_fetch_window (bars : List ℤ) (last today : ℤ)
    (incremental : Bool) :
    (bars ≠ [] → ∃ d, get_last_collection_date bars = some d
      ∧ d ∈ bars ∧ ∀ x ∈ bars, x ≤ d)
    ∧ (get_last_collection_date bars = some last →
        compute_fetch_window true (get_last_collection_date bars) today
          = (last + 1, today))
    ∧ compute_fetch_window true none today = (today - 365, today)
    ∧ compute_fetch_window false (some last) today = (today - 365, today)
    ∧ compute_fetch_window incremental none today = (today - 365, today) := by
  refine ⟨?_, ?_, rfl, rfl, ?_⟩
  · intro hne
    cases hr : get_last_collection_date bars with
    | none =>
      obtain ⟨_, hnil⟩ := foldl_pickLaterDate_eq_none bars none hr
      exact absurd hnil hne
    | some d =>
      obtain ⟨hmem, _, hbound⟩ := foldl_pickLaterDate_spec bars none d hr
      refine ⟨d, rfl, ?_, hbound⟩
      rcases hmem with hm | hm
      · cases hm
      · exact hm
  · intro h
    rw [h]
    rfl
  · cases incremental <;> rfl

/-- C5 witness: bars persisted on days 8 and 10, today day 15 — the
last collection date is day 10 and the incremental window is
`(11, 15)`; with no bars the window is `(15 - 365, 15)`. -/
theorem incremental_fetch_window_witness :
    (∃ d, get_last_collection_date [8, 10] = some d
      ∧ d ∈ [(8 : ℤ), 10] ∧ ∀ x ∈ [(8 : ℤ), 10], x ≤ d)
    ∧ compute_fetch_window true (get_last_collection_date [8, 10]) 15 = (11, 15)
    ∧ compute_fetch_window true none 15 = (15 - 365, 15)
    ∧ compute_fetch_window false (some 10) 15 = (15 - 365, 15) := by
  have h := incremental_fetch_window [8, 10] 10 15 true
  exact ⟨h.1 (by decide), h.2.1 (by decide), h.2.2.1, h.2.2.2.1⟩

/-! ## Incremental Collector: partial-failure isolation in
`collect_korea_batch` (`app/services/batch_collector.py`, lines
112–149).

Each security's processing sits in a `try/except` whose `except` arm
appends the error, bumps the failure counter and `continue`s; the
outcome of one security's fetch-and-save is modelled as
`Except String ℕ` (error message, or number of price records saved). -/

/-- The counters and error list of the batch `results` dict. -/
structure BatchResult where
  stocks_processed : ℕ
  stocks_success : ℕ
  stocks_failed : ℕ
  prices_saved : ℕ
  errors : List String
  deriving Repr, DecidableEq

/-- Initial batch result. -/
def initBatchResult : BatchResult := ⟨0, 0, 0, 0, []⟩

/-- One iteration of the per-security loop: count the security as
processed, then either record its saved prices or record its error and
continue. -/
def process_security (res : BatchResult) (outcome : Except String ℕ) : BatchResult :=
  match outcome with
  | .ok n =>
    { res with
      stocks_processed := res.stocks_processed + 1
      stocks_success := res.stocks_success + 1
      prices_saved := res.prices_saved + n }
  | .error e =>
    { res with
      stocks_processed := res.stocks_processed + 1
      stocks_failed := res.stocks_failed + 1
      errors := res.errors ++ [e] }

/-- The per-security loop of `collect_korea_batch` over the batch's
outcomes. -/
def collect_batch (outcomes : List (Except String ℕ)) : BatchResult :=
  outcomes.foldl process_security initBatchResult

/-- An outcome is a success. -/
def isOk : Except String ℕ → Bool
  | .ok _ => true
  | .error _ => false

/-- Counter bookkeeping of the per-security loop, generalized over the
running result. -/
lemma collect_batch_counts (outcomes : List (Except String ℕ)) (res : BatchResult) :
    (outcomes.foldl process_security res).stocks_processed
        = res.stocks_processed + outcomes.length
    ∧ (outcomes.foldl process_security res).stocks_success
        = res.stocks_success + (outcomes.filter isOk).length
    ∧ (outcomes.foldl process_security res).stocks_failed
        = res.stocks_failed + (outcomes.filter (fun o => ! isOk o)).length
    ∧ (outcomes.foldl process_security res).errors.length
        = res.errors.length + (outcomes.filter (fun o => ! isOk o)).length := by
  induction outcomes generalizing res with
  | nil => simp
  | cons o os ih =>
    rw [List.foldl_cons]
    obtain ⟨ih1, ih2, ih3, ih4⟩ := ih (process_security res o)
    cases o with
    | ok n =>
      rw [ih1, ih2, ih3, ih4]
      refine ⟨?_, ?_, ?_, ?_⟩ <;> (simp [process_security, isOk]; all_goals omega)
    | error e =>
      rw [ih1, ih2, ih3, ih4]
      refine ⟨?_, ?_, ?_, ?_⟩ <;> (simp [process_security, isOk]; all_goals omega)

/-- C6: one security's failure never aborts the batch — every security
is processed, the result counts every success and every failure, and
each failure contributes exactly one error entry; in particular a batch
of 5 securities whose third fetch raises reports `processed = 5`,
`succeeded = 4`, `failed = 1` with exactly one error. -/
theorem batch_partial_failure_isolation (outcomes : List (Except String ℕ)) :
    (collect_batch outcomes).stocks_processed = outcomes.length
    ∧ (collect_batch outcomes).stocks_success = (outcomes.filter isOk).length
    ∧ (collect_batch outcomes).stocks_failed
        = (outcomes.filter (fun o => ! isOk o)).length
    ∧ (collect_batch outcomes).errors.length
        = (outcomes.filter (fun o => ! isOk o)).length
    ∧ (collect_batch [.ok 3, .ok 1, .error "provider error", .ok 2, .ok 5]
        : BatchResult).stocks_processed = 5
    ∧ (collect_batch [.ok 3, .ok 1, .error "provider error", .ok 2, .ok 5]
        : BatchResult).stocks_success = 4
    ∧ (collect_batch [.ok 3, .ok 1, .error "provider error", .ok 2, .ok 5]
        : BatchResult).stocks_failed = 1
    ∧ (collect_batch [.ok 3, .ok 1, .error "provider error", .ok 2, .ok 5]
        : BatchResult).errors = ["provider error"] := by
  obtain ⟨h1, h2, h3, h4⟩ := collect_batch_counts outcomes initBatchResult
  refine ⟨?_, ?_, ?_, ?_, by decide, by decide, by decide, by decide⟩
  · simpa [initBatchResult] using h1
  · simpa [initBatchResult] using h2
  · simpa [initBatchResult] using h3
  · simpa [initBatchResult] using h4

/-! ## Ratio Engine: `save_ratios_to_db`
(`app/services/financial_ratio_calculator.py`, lines 307–384) against
the `FinancialRatio` model (`app/models/financial.py`, lines 44–72).

The `financial_ratios` table is a list of rows; the lookup
`filter(stock_id, fiscal_date, report_type).first()` plus
update-or-insert is modelled literally. -/

/-- One persisted `FinancialRatio` row. -/
structure RatioRow where
  stock_id : ℕ
  fiscal_date : ℤ
  report_type : String
  roe : Option ℚ
  roa : Option ℚ
  operating_margin : Option ℚ
  net_margin : Option ℚ
  debt_ratio : Option ℚ
  per : Option ℚ
  pbr : Option ℚ
  psr : Option ℚ
  deriving Repr, DecidableEq

/-- `report_type` from `fiscal_quarter`: `None → annual`, 1–3 → Q1–Q3,
anything else → annual. -/
def report_type_of_quarter (q : Option ℕ) : String :=
  match q with
  | none => "annual"
  | some 1 => "Q1"
  | some 2 => "Q2"
  | some 3 => "Q3"
  | some _ => "annual"

/-- The row filter of the existing-row query:
`stock_id == sid and fiscal_date == d and report_type == rt`. -/
def sameRatioKey (sid : ℕ) (d : ℤ) (rt : String) (r : RatioRow) : Bool :=
  r.stock_id == sid && r.fiscal_date == d && r.report_type == rt

/-- The update arm of `save_ratios_to_db`: `setattr` only the keys
whose computed value `is not None`; null computed values leave the
stored column untouched, and the key columns are not written at all. -/
def update_ratio_row (old : RatioRow) (data : Ratios) : RatioRow :=
  { old with
    roe := match data.roe with | some v => some v | none => old.roe
    roa := match data.roa with | some v => some v | none => old.roa
    operating_margin :=
      match data.operating_margin with | some v => some v | none => old.operating_margin
    net_margin := match data.net_margin with | some v => some v | none => old.net_margin
    debt_ratio := match data.debt_ratio with | some v => some v | none => old.debt_ratio
    per := match data.per with | some v => some v | none => old.per
    pbr := match data.pbr with | some v => some v | none => old.pbr
    psr := match data.psr with | some v => some v | none => old.psr }

/-- The insert arm of `save_ratios_to_db`: a fresh row holding the
computed values. -/
def new_ratio_row (sid : ℕ) (d : ℤ) (rt : String) (data : Ratios) : RatioRow :=
  ⟨sid, d, rt, data.roe, data.roa, data.operating_margin, data.net_margin,
    data.debt_ratio, data.per, data.pbr, data.psr⟩

/-- Apply `f` to the first row matching `p` (the `.first()` row),
leaving every other row in place. -/
def updateFirst (p : RatioRow → Bool) (f : RatioRow → RatioRow) :
    List RatioRow → List RatioRow
  | [] => []
  | r :: rest => if p r then f r :: rest else r :: updateFirst p f rest

/-- `save_ratios_to_db`: look up the existing row by
(stock_id, fiscal_date, report_type); update it in place when present,
otherwise append a new row. -/
def save_ratios_to_db (db : List RatioRow) (sid : ℕ) (d : ℤ) (q : Option ℕ)
    (data : Ratios) : List RatioRow :=
  let rt := report_type_of_quarter q
  match db.find? (sameRatioKey sid d rt) with
  | some _ => updateFirst (sameRatioKey sid d rt) (fun old => update_ratio_row old data) db
  | none => db ++ [new_ratio_row sid d rt data]

/-- Number of rows carrying a given (stock_id, fiscal_date,
report_type) key. -/
def countKey (db : List RatioRow) (sid : ℕ) (d : ℤ) (rt : String) : ℕ :=
  (db.filter (sameRatioKey sid d rt)).length

/-- One `compute_ratios`-and-save operation. -/
structure SaveOp where
  stock_id : ℕ
  fiscal_date : ℤ
  fiscal_quarter : Option ℕ
  data : Ratios
  deriving Repr, DecidableEq

/-- A sequence of save operations applied to the table. -/
def apply_saves (db : List RatioRow) (ops : List SaveOp) : List RatioRow :=
  ops.foldl (fun db op =>
    save_ratios_to_db db op.stock_id op.fiscal_date op.fiscal_quarter op.data) db

/-- The in-place update does not move any row across a key filter. -/
lemma countKey_updateFirst (p : RatioRow → Bool) (data : Ratios)
    (l : List RatioRow) (sid : ℕ) (d : ℤ) (rt : String) :
    ((updateFirst p (fun old => update_ratio_row old data) l).filter
      (sameRatioKey sid d rt)).length
      = (l.filter (sameRatioKey sid d rt)).length := by
  induction l with
  | nil => rfl
  | cons r rest ih =>
    simp only [updateFirst]
    have hkey : sameRatioKey sid d rt (update_ratio_row r data) = sameRatioKey sid d rt r := rfl
    split
    · rw [List.filter_cons, List.filter_cons, hkey]
      cases sameRatioKey sid d rt r <;> simp
    · rw [List.filter_cons, List.filter_cons]
      cases sameRatioKey sid d rt r <;> simp [ih]

/-- The appended fresh row matches exactly its own key. -/
lemma countKey_append_new (db : List RatioRow) (sid s : ℕ) (d dd : ℤ)
    (rt rt2 : String) (data : Ratios) :
    countKey (db ++ [new_ratio_row sid d rt data]) s dd rt2
      = countKey db s dd rt2
        + (if s = sid ∧ dd = d ∧ rt2 = rt then 1 else 0) := by
  simp only [countKey, List.filter_append, List.length_append]
  congr 1
  simp only [List.filter, sameRatioKey, new_ratio_row]
  by_cases h : s = sid ∧ dd = d ∧ rt2 = rt
  · obtain ⟨h1, h2, h3⟩ := h
    subst h1; subst h2; subst h3
    simp
  · rw [if_neg h]
    have : ((sid == s && (d == dd : Bool)) && (rt == rt2 : Bool)) = false := by
      by_contra hc
      rw [Bool.not_eq_false, Bool.and_eq_true, Bool.and_eq_true] at hc
      obtain ⟨⟨c1, c2⟩, c3⟩ := hc
      exact h ⟨(beq_iff_eq.mp c1).symm, (beq_iff_eq.mp c2).symm,
        (beq_iff_eq.mp c3).symm⟩
    simp [this]

/-- A key with no row in the table has count zero. -/
lemma countKey_of_find_none (db : List RatioRow) (sid : ℕ) (d : ℤ) (rt : String)
    (h : db.find? (sameRatioKey sid d rt) = none) : countKey db sid d rt = 0 := by
  simp only [countKey, List.length_eq_zero]
  rw [List.filter_eq_nil_iff]
  intro a ha
  exact (List.find?_eq_none.mp h) a ha

/-- A key found in the table has positive count. -/
lemma countKey_pos_of_find_some (db : List RatioRow) (sid : ℕ) (d : ℤ) (rt : String)
    (r : RatioRow) (h : db.find? (sameRatioKey sid d rt) = some r) :
    1 ≤ countKey db sid d rt := by
  have hmem : r ∈ db := List.mem_of_find?_eq_some h
  have hp : sameRatioKey sid d rt r = true := List.find?_some h
  have : r ∈ db.filter (sameRatioKey sid d rt) := List.mem_filter.mpr ⟨hmem, hp⟩
  calc 1 ≤ (db.filter (sameRatioKey sid d rt)).length :=
        List.length_pos.mpr (List.ne_nil_of_mem this)
    _ = countKey db sid d rt := rfl

/-- One save preserves the at-most-one-row-per-key invariant and leaves
the saved key with exactly one row. -/
lemma save_ratios_unique_step (db : List RatioRow) (sid : ℕ) (d : ℤ)
    (q : Option ℕ) (data : Ratios)
    (h : ∀ s dd rt, countKey db s dd rt ≤ 1) :
    (∀ s dd rt, countKey (save_ratios_to_db db sid d q data) s dd rt ≤ 1)
    ∧ countKey (save_ratios_to_db db sid d q data) sid d
        (report_type_of_quarter q) = 1 := by
  simp only [save_ratios_to_db]
  cases hf : db.find? (sameRatioKey sid d (report_type_of_quarter q)) with
  | some r =>
    constructor
    · intro s dd rt
      show ((updateFirst _ _ db).filter _).length ≤ 1
      rw [countKey_updateFirst]
      exact h s dd rt
    · show ((updateFirst _ _ db).filter _).length = 1
      rw [countKey_updateFirst]
      exact le_antisymm (h _ _ _) (countKey_pos_of_find_some db _ _ _ r hf)
  | none =>
    constructor
    · intro s dd rt
      rw [countKey_append_new]
      by_cases hk : s = sid ∧ dd = d ∧ rt = report_type_of_quarter q
      · obtain ⟨h1, h2, h3⟩ := hk
        subst h1; subst h2; subst h3
        rw [countKey_of_find_none db _ _ _ hf]
        simp
      · rw [if_neg hk]
        simpa using h s dd rt
    · rw [countKey_append_new, countKey_of_find_none db _ _ _ hf]
      simp

/-- C7: at most one `FinancialRatio` row per (stock_id, fiscal_date,
report_type) after any sequence of compute-and-save operations — each
save preserves the unique-key invariant and ends with exactly one row
for the saved key — and a save that finds an existing row updates it in
place without changing the number of rows (no duplicate insert). -/
theorem financial_ratio_unique_key (db : List RatioRow) (sid : ℕ) (d : ℤ)
    (q : Option ℕ) (data : Ratios) (ops : List SaveOp) (r : RatioRow) :
    ((∀ s dd rt, countKey db s dd rt ≤ 1) →
      (∀ s dd rt, countKey (save_ratios_to_db db sid d q data) s dd rt ≤ 1)
      ∧ countKey (save_ratios_to_db db sid d q data) sid d
          (report_type_of_quarter q) = 1
      ∧ (∀ s dd rt, countKey (apply_saves db ops) s dd rt ≤ 1))
    ∧ (db.find? (sameRatioKey sid d (report_type_of_quarter q)) = some r →
        (save_ratios_to_db db sid d q data).length = db.length) := by
  constructor
  · intro h
    obtain ⟨hu, hone⟩ := save_ratios_unique_step db sid d q data h
    refine ⟨hu, hone, ?_⟩
    suffices hgen : ∀ (base : List RatioRow), (∀ s dd rt, countKey base s dd rt ≤ 1) →
        ∀ s dd rt, countKey (apply_saves base ops) s dd rt ≤ 1 from hgen db h
    induction ops with
    | nil => intro base hb s dd rt; exact hb s dd rt
    | cons op rest ih =>
      intro base hb s dd rt
      exact ih (save_ratios_to_db base op.stock_id op.fiscal_date op.fiscal_quarter op.data)
        (save_ratios_unique_step base _ _ _ _ hb).1 s dd rt
  · intro hf
    simp only [save_ratios_to_db, hf]
    suffices hlen : ∀ (l : List RatioRow) (p : RatioRow → Bool),
        (updateFirst p (fun old => update_ratio_row old data) l).length = l.length from
      hlen db _
    intro l p
    induction l with
    | nil => rfl
    | cons x xs ih =>
      simp only [updateFirst]
      split <;> simp [ih]

/-- C7 witness: starting from an empty table, saving the same
(stock 7, fiscal date 100, annual) twice leaves exactly one row, and
the second save does not grow the table. -/
theorem financial_ratio_unique_key_witness :
    countKey (save_ratios_to_db [] 7 100 none
      ⟨some 20, none, none, none, none, some 50, none, none⟩) 7 100 "annual" = 1
    ∧ (save_ratios_to_db
        (save_ratios_to_db [] 7 100 none
          ⟨some 20, none, none, none, none, some 50, none, none⟩)
        7 100 none ⟨some 21, none, none, none, none, none, none, none⟩).length
      = (save_ratios_to_db [] 7 100 none
          ⟨some 20, none, none, none, none, some 50, none, none⟩).length := by
  constructor
  · exact ((financial_ratio_unique_key [] 7 100 none
      ⟨some 20, none, none, none, none, some 50, none, none⟩ []
      (new_ratio_row 7 100 "annual"
        ⟨some 20, none, none, none, none, some 50, none, none⟩)).1
      (by intro s dd rt; simp [countKey])).2.1
  · exact (financial_ratio_unique_key
      (save_ratios_to_db [] 7 100 none
        ⟨some 20, none, none, none, none, some 50, none, none⟩)
      7 100 none ⟨some 21, none, none, none, none, none, none, none⟩ []
      (new_ratio_row 7 100 "annual"
        ⟨some 20, none, none, none, none, some 50, none, none⟩)).2 (by decide)

/-- C10: re-saving ratios over an existing row overwrites only the
fields whose newly computed value is non-null; a null recomputed value
keeps the previously stored value (recomputation never clears a
persisted ratio back to null), and the key columns of the row are
unchanged. -/
theorem ratio_resave_frame (old : RatioRow) (data : Ratios) :
    (update_ratio_row old data).stock_id = old.stock_id
    ∧ (update_ratio_row old data).fiscal_date = old.fiscal_date
    ∧ (update_ratio_row old data).report_type = old.report_type
    ∧ (data.roe = none → (update_ratio_row old data).roe = old.roe)
    ∧ (∀ v, data.roe = some v → (update_ratio_row old data).roe = some v)
    ∧ (data.roa = none → (update_ratio_row old data).roa = old.roa)
    ∧ (∀ v, data.roa = some v → (update_ratio_row old data).roa = some v)
    ∧ (data.operating_margin = none →
        (update_ratio_row old data).operating_margin = old.operating_margin)
    ∧ (∀ v, data.operating_margin = some v →
        (update_ratio_row old data).operating_margin = some v)
    ∧ (data.net_margin = none →
        (update_ratio_row old data).net_margin = old.net_margin)
    ∧ (∀ v, data.net_margin = some v →
        (update_ratio_row old data).net_margin = some v)
    ∧ (data.debt_ratio = none →
        (update_ratio_row old data).debt_ratio = old.debt_ratio)
    ∧ (∀ v, data.debt_ratio = some v →
        (update_ratio_row old data).debt_ratio = some v)
    ∧ (data.per = none → (update_ratio_row old data).per = old.per)
    ∧ (∀ v, data.per = some v → (update_ratio_row old data).per = some v)
    ∧ (data.pbr = none → (update_ratio_row old data).pbr = old.pbr)
    ∧ (∀ v, data.pbr = some v → (update_ratio_row old data).pbr = some v)
    ∧ (data.psr = none → (update_ratio_row old data).psr = old.psr)
    ∧ (∀ v, data.psr = some v → (update_ratio_row old data).psr = some v) := by
  refine ⟨rfl, rfl, rfl, ?_, ?_, ?_, ?_, ?_, ?_, ?_, ?_, ?_, ?_, ?_, ?_, ?_, ?_, ?_, ?_⟩ <;>
    first
    | (intro h
       simp [update_ratio_row, h])
    | (intro v h
       simp [update_ratio_row, h])

/-- C10 witness: an update with null PER and a fresh ROE keeps the
stored PER, overwrites ROE, and preserves the key columns. -/
theorem ratio_resave_frame_witness :
    (update_ratio_row
      ⟨7, 100, "annual", some 20, none, none, none, none, some 50, none, none⟩
      ⟨some 21, none, none, none, none, none, none, none⟩).per = some 50
    ∧ (update_ratio_row
      ⟨7, 100, "annual", some 20, none, none, none, none, some 50, none, none⟩
      ⟨some 21, none, none, none, none, none, none, none⟩).roe = some 21
    ∧ (update_ratio_row
      ⟨7, 100, "annual", some 20, none, none, none, none, some 50, none, none⟩
      ⟨some 21, none, none, none, none, none, none, none⟩).stock_id = 7 := by
  have h := ratio_resave_frame
    ⟨7, 100, "annual", some 20, none, none, none, none, some 50, none, none⟩
    ⟨some 21, none, none, none, none, none, none, none⟩
  exact ⟨h.2.2.2.2.2.2.2.2.2.2.2.2.2.1 rfl, h.2.2.2.2.1 21 rfl, h.1⟩

/-! ## Quality Checker: `DataQualityChecker.check_ratio_anomalies`
(`app/services/data_quality_checker.py`, lines 18–29 and 117–221). -/

/-- The eight ratio fields carried by the checker's thresholds table. -/
inductive RatioField
  | roe | roa | per | pbr | psr | debt_ratio | operating_margin | net_margin
  deriving Repr, DecidableEq

/-- The `self.thresholds` table of `DataQualityChecker.__init__`:
`(min, max, extreme)` per field. -/
def qc_thresholds (f : RatioField) : ℚ × ℚ × ℚ :=
  match f with
  | .roe => (-100, 100, 50)
  | .roa => (-100, 100, 30)
  | .per => (-100, 1000, 100)
  | .pbr => (-10, 100, 20)
  | .psr => (-10, 100, 20)
  | .debt_ratio => (0, 1000, 200)
  | .operating_margin => (-100, 100, 50)
  | .net_margin => (-100, 100, 50)

/-- Read one checker field off a persisted ratio row. -/
def getRatioField (r : RatioRow) : RatioField → Option ℚ
  | .roe => r.roe
  | .roa => r.roa
  | .per => r.per
  | .pbr => r.pbr
  | .psr => r.psr
  | .debt_ratio => r.debt_ratio
  | .operating_margin => r.operating_margin
  | .net_margin => r.net_margin

/-- The extreme-value test of the checker loop:
`value < thresholds['min'] or value > thresholds['max']`. -/
def is_extreme (f : RatioField) (v : ℚ) : Bool :=
  decide (v < (qc_thresholds f).1) || decide (v > (qc_thresholds f).2.1)

/-- The per-row `extreme_flags` collection: every non-null field whose
value is outside its thresholds. -/
def extreme_flags (r : RatioRow) : List RatioField :=
  [RatioField.roe, .roa, .per, .pbr, .psr, .debt_ratio, .operating_margin,
    .net_margin].filter (fun f =>
      match getRatioField r f with
      | none => false
      | some v => is_extreme f v)

/-- The `negative_values` test: `field in ['per', 'pbr', 'psr'] and
value < 0`. -/
def is_negative_flag (f : RatioField) (v : ℚ) : Bool :=
  (f == .per || f == .pbr || f == .psr) && decide (v < 0)

/-- The six fields of the null count:
`['roe', 'roa', 'per', 'pbr', 'psr', 'debt_ratio']`. -/
def null_count (r : RatioRow) : ℕ :=
  ([r.roe, r.roa, r.per, r.pbr, r.psr, r.debt_ratio].filter Option.isNone).length

/-- The high-null flag: `null_count >= 4` of the 6 checked fields. -/
def high_null_flag (r : RatioRow) : Bool :=
  decide (4 ≤ null_count r)

/-- C8 counterexample: a latest ratio row with `per = 2000` is inside
the Ratio Engine's own suppression interval `[-1000, 10000]` — the
engine keeps `calculate_per 2000 1 = 2000` — yet the checker flags it
as extreme, because its thresholds table bounds PER by `[-100, 1000]`,
not by the engine's suppression bounds. -/
theorem anomaly_bounds_counterexample :
    calculate_per 2000 1 = some 2000
    ∧ is_extreme .per 2000 = true
    ∧ ¬ ((2000 : ℚ) > 10000 ∨ (2000 : ℚ) < -1000)
    ∧ extreme_flags ⟨7, 100, "annual", none, none, none, none, none,
        some 2000, none, none⟩ = [.per] := by
  refine ⟨by norm_num [calculate_per], by decide, by norm_num, by decide⟩

/-- C8 (amended): the checker flags a non-null value as extreme exactly
when it lies outside its *own* thresholds table — PER outside
`[-100, 1000]`, PBR and PSR outside `[-10, 100]`, ROE/ROA and both
margins outside `[-100, 100]`, debt ratio outside `[0, 1000]` — which
is not the Ratio Engine's suppression interval; and it flags a
security exactly when at least 4 of the 6 checked ratio fields (roe,
roa, per, pbr, psr, debt_ratio) of its latest row are null, which is a
majority of the checked fields. -/
theorem anomaly_detection_amended (r : RatioRow) (v : ℚ) (f : RatioField) :
    (f ∈ extreme_flags r ↔
      ∃ w, getRatioField r f = some w
        ∧ (w < (qc_thresholds f).1 ∨ w > (qc_thresholds f).2.1))
    ∧ (is_extreme .per v = true ↔ (v < -100 ∨ v > 1000))
    ∧ (is_extreme .pbr v = true ↔ (v < -10 ∨ v > 100))
    ∧ (is_extreme .psr v = true ↔ (v < -10 ∨ v > 100))
    ∧ (is_extreme .roe v = true ↔ (v < -100 ∨ v > 100))
    ∧ (is_extreme .debt_ratio v = true ↔ (v < 0 ∨ v > 1000))
    ∧ (high_null_flag r = true ↔ 4 ≤ null_count r)
    ∧ (high_null_flag r = true → 6 < 2 * null_count r)
    ∧ (is_negative_flag f v = true ↔
        ((f = .per ∨ f = .pbr ∨ f = .psr) ∧ v < 0)) := by
  refine ⟨?_, ?_, ?_, ?_, ?_, ?_, ?_, ?_, ?_⟩
  · constructor
    · intro h
      have hmem := List.mem_filter.mp h
      cases hv : getRatioField r f with
      | none => rw [hv] at hmem; cases hmem.2
      | some w =>
        rw [hv] at hmem
        refine ⟨w, rfl, ?_⟩
        have := hmem.2
        simp only [is_extreme, Bool.or_eq_true, decide_eq_true_eq] at this
        exact this
    · rintro ⟨w, hw, hout⟩
      refine List.mem_filter.mpr ⟨?_, ?_⟩
      · cases f <;> decide
      · rw [hw]
        simp only [is_extreme, Bool.or_eq_true, decide_eq_true_eq]
        exact hout
  · simp [is_extreme, qc_thresholds]
  · simp [is_extreme, qc_thresholds]
  · simp [is_extreme, qc_thresholds]
  · simp [is_extreme, qc_thresholds]
  · simp [is_extreme, qc_thresholds]
  · simp [high_null_flag]
  · intro h
    simp only [high_null_flag, decide_eq_true_eq] at h
    omega
  · cases f <;> simp [is_negative_flag]

/-- C8 amended witness: `per = 2000` lands in the extreme-flag list, a
row with 4 of its 6 checked fields null raises the high-null flag, and
`pbr = -5` raises the negative-value flag. -/
theorem anomaly_detection_amended_witness :
    RatioField.per ∈ extreme_flags ⟨7, 100, "annual", none, none, none, none,
      none, some 2000, none, none⟩
    ∧ (is_extreme .per 2000 = true)
    ∧ (high_null_flag ⟨7, 100, "annual", some 20, none, none, none, none,
        some 50, none, none⟩ = true)
    ∧ (is_negative_flag .pbr (-5) = true) := by
  have h := anomaly_detection_amended ⟨7, 100, "annual", none, none, none, none,
      none, some 2000, none, none⟩ (2000 : ℚ) RatioField.per
  refine ⟨?_, ?_, ?_, ?_⟩
  · exact h.1.mpr ⟨2000, rfl, by norm_num [qc_thresholds]⟩
  · exact h.2.1.mpr (by norm_num)
  · exact (anomaly_detection_amended ⟨7, 100, "annual", some 20, none, none, none,
      none, some 50, none, none⟩ 0 RatioField.per).2.2.2.2.2.2.1.mpr (by decide)
  · exact (anomaly_detection_amended ⟨7, 100, "annual", none, none, none, none,
      none, none, none, none⟩ (-5) RatioField.pbr).2.2.2.2.2.2.2.2.mpr
      ⟨Or.inr (Or.inl rfl), by norm_num⟩
